import Mathlib

/-!
Verification of the payment-engine ledger state machine
(`src/engine/state.rs`), shallowly embedded in Lean 4.

Amounts are `rust_decimal::Decimal` in the source: a signed scaled decimal
(integer mantissa together with a base-10 exponent, the scale).  Here they
are modelled by the structure `Decimal` below with an unbounded mantissa
(the spec reads the type as an arbitrary-precision decimal, so the 96-bit
overflow regime of `rust_decimal` is out of scope).  Addition and
subtraction align both operands to the larger scale and operate on the
aligned mantissas, and the order and the numeric equivalence `Decimal.eqv`
compare aligned mantissas — exactly the observable behaviour of
`rust_decimal`'s `+`, `-`, `Ord` and `PartialEq` away from overflow.

Client ids (`u16`) and transaction ids (`u32`) are modelled as `Nat`: they
are only used as map keys, never arithmetically.  The two `HashMap`s of
`State` are modelled as functions `Nat → Option _` with pointwise update.
-/

namespace PaymentEngine

/-- Model of `rust_decimal::Decimal`: integer mantissa and base-10 scale,
denoting the rational mantissa / 10 ^ scale. -/
structure Decimal where
  mantissa : Int
  scale : Nat
deriving DecidableEq, Repr

namespace Decimal

/-- Mantissa of `a` rescaled to the common scale `max a.scale b.scale`. -/
def alignL (a b : Decimal) : Int :=
  a.mantissa * (10 : Int) ^ (max a.scale b.scale - a.scale)

/-- Rust `Decimal` addition: align scales, add mantissas. -/
def add (a b : Decimal) : Decimal :=
  { mantissa := alignL a b + alignL b a, scale := max a.scale b.scale }

/-- Rust `Decimal` subtraction: align scales, subtract mantissas. -/
def sub (a b : Decimal) : Decimal :=
  { mantissa := alignL a b - alignL b a, scale := max a.scale b.scale }

/-- Rust `Decimal` order (`<=`): numeric comparison of aligned mantissas. -/
def le (a b : Decimal) : Prop := alignL a b ≤ alignL b a

/-- Rust `Decimal` strict order (`<`). -/
def lt (a b : Decimal) : Prop := alignL a b < alignL b a

/-- Rust `Decimal` numeric equality (`PartialEq`): equal values, possibly
different representations. -/
def eqv (a b : Decimal) : Prop := alignL a b = alignL b a

/-- Rust `Decimal::ZERO`. -/
def zero : Decimal := { mantissa := 0, scale := 0 }

/-- Shorthand for integral decimal literals (scale 0). -/
def ofInt (n : Int) : Decimal := { mantissa := n, scale := 0 }

instance : Add Decimal := ⟨Decimal.add⟩
instance : Sub Decimal := ⟨Decimal.sub⟩
instance : LE Decimal := ⟨Decimal.le⟩
instance : LT Decimal := ⟨Decimal.lt⟩

instance (a b : Decimal) : Decidable (a ≤ b) :=
  inferInstanceAs (Decidable (alignL a b ≤ alignL b a))

instance (a b : Decimal) : Decidable (a < b) :=
  inferInstanceAs (Decidable (alignL a b < alignL b a))

instance (a b : Decimal) : Decidable (eqv a b) :=
  inferInstanceAs (Decidable (alignL a b = alignL b a))

end Decimal

/-- Status tag of a transaction record (`TransactionStatus` in
`src/models/transaction.rs`). -/
inductive TransactionStatus where
  | Normal
  | Disputed
  | ChargedBack
deriving DecidableEq, Repr

/-- A client account (`Account` in `src/models/account.rs`). -/
structure Account where
  client_id : Nat
  available : Decimal
  held : Decimal
  locked : Bool
deriving DecidableEq, Repr

/-- Ledger memory of an applied deposit or withdrawal
(`TransactionRecord` in `src/models/transaction.rs`). -/
structure TransactionRecord where
  client_id : Nat
  amount : Decimal
  is_deposit : Bool
  status : TransactionStatus
deriving DecidableEq, Repr

/-- A decoded command (`Command` in `src/models/command.rs`). -/
inductive Command where
  | Deposit (client_id : Nat) (tx : Nat) (amount : Decimal)
  | Withdrawal (client_id : Nat) (tx : Nat) (amount : Decimal)
  | Dispute (client_id : Nat) (tx : Nat)
  | Resolve (client_id : Nat) (tx : Nat)
  | Chargeback (client_id : Nat) (tx : Nat)
deriving DecidableEq, Repr

/-- Engine state (`State` in `src/engine/state.rs`): the two owned maps. -/
structure State where
  accounts : Nat → Option Account
  transactions : Nat → Option TransactionRecord

/-- Pointwise map update, modelling `HashMap::insert` (and an
`entry(..).or_insert_with(..)` that ends up storing `v` under `k`). -/
def upd {α : Type} (m : Nat → Option α) (k : Nat) (v : α) : Nat → Option α :=
  fun c => if c = k then some v else m c

/-- The default account built by the lazy-creation closure passed to
`or_insert_with` in the Deposit and Withdrawal arms. -/
def emptyAccount (client : Nat) : Account :=
  { client_id := client, available := Decimal.zero, held := Decimal.zero,
    locked := false }

/-- Rust `self.accounts.get(&client).is_some_and(|acc| acc.locked)`. -/
def lockedOf : Option Account → Bool
  | none => false
  | some a => a.locked

/-- The fresh state produced by `State::new()`. -/
def State.empty : State :=
  { accounts := fun _ => none, transactions := fun _ => none }

/-- Shallow embedding of `State::process_single_command`
(`src/engine/state.rs`, lines 25-186), arm by arm and check by check in
source order. -/
def State.process_single_command (s : State) (cmd : Command) : State :=
  match cmd with
  | Command.Deposit client tx amount =>
      if (s.transactions tx).isSome then s
      else if lockedOf (s.accounts client) then s
      else
        let account := (s.accounts client).getD (emptyAccount client)
        let account2 := { account with available := account.available + amount }
        { accounts := upd s.accounts client account2,
          transactions := upd s.transactions tx
            { client_id := client, amount := amount, is_deposit := true,
              status := TransactionStatus.Normal } }
  | Command.Withdrawal client tx amount =>
      if (s.transactions tx).isSome then s
      else if lockedOf (s.accounts client) then s
      else
        let account := (s.accounts client).getD (emptyAccount client)
        if amount ≤ account.available then
          { accounts := upd s.accounts client
              { account with available := account.available - amount },
            transactions := upd s.transactions tx
              { client_id := client, amount := amount, is_deposit := false,
                status := TransactionStatus.Normal } }
        else
          -- insufficient funds: no record, but `entry(..).or_insert_with`
          -- has already stored the (possibly fresh) account
          { accounts := upd s.accounts client account,
            transactions := s.transactions }
  | Command.Dispute client tx =>
      if lockedOf (s.accounts client) then s
      else
        match s.transactions tx with
        | none => s
        | some record =>
            if record.client_id ≠ client then s
            else if record.is_deposit = false ∨
                record.status ≠ TransactionStatus.Normal then s
            else
              -- the record status is set before the account lookup
              let transactions2 := upd s.transactions tx
                { record with status := TransactionStatus.Disputed }
              match s.accounts client with
              | none => { accounts := s.accounts, transactions := transactions2 }
              | some account =>
                  { accounts := upd s.accounts client
                      { account with
                        available := account.available - record.amount,
                        held := account.held + record.amount },
                    transactions := transactions2 }
  | Command.Resolve client tx =>
      if lockedOf (s.accounts client) then s
      else
        match s.transactions tx with
        | none => s
        | some record =>
            if record.client_id ≠ client then s
            else if record.status ≠ TransactionStatus.Disputed then s
            else
              let transactions2 := upd s.transactions tx
                { record with status := TransactionStatus.Normal }
              match s.accounts client with
              | none => { accounts := s.accounts, transactions := transactions2 }
              | some account =>
                  { accounts := upd s.accounts client
                      { account with
                        held := account.held - record.amount,
                        available := account.available + record.amount },
                    transactions := transactions2 }
  | Command.Chargeback client tx =>
      match s.transactions tx with
      | none => s
      | some record =>
          if record.client_id ≠ client ∨
              record.status ≠ TransactionStatus.Disputed then s
          else
            match s.accounts client with
            | none => s
            | some account =>
                if account.locked then s
                else
                  let held2 := account.held - record.amount
                  let held3 := if held2 < Decimal.zero then Decimal.zero else held2
                  { accounts := upd s.accounts client
                      { account with held := held3, locked := true },
                    transactions := upd s.transactions tx
                      { record with status := TransactionStatus.ChargedBack } }

/-- Left-to-right application of a command list (the processing loop of
`src/engine/runner.rs` restricted to successfully decoded commands). -/
def State.run (s : State) (cmds : List Command) : State :=
  cmds.foldl State.process_single_command s

/-- A state reachable from `State::new()` by some command sequence. -/
def Reachable (s : State) : Prop :=
  ∃ cmds : List Command, State.run State.empty cmds = s

/-- Client identifier named by a command. -/
def Command.clientOf : Command → Nat
  | Command.Deposit c _ _ => c
  | Command.Withdrawal c _ _ => c
  | Command.Dispute c _ => c
  | Command.Resolve c _ => c
  | Command.Chargeback c _ => c

/-- Amount carried by a command (deposits and withdrawals only). -/
def Command.amountOf : Command → Option Decimal
  | Command.Deposit _ _ a => some a
  | Command.Withdrawal _ _ a => some a
  | Command.Dispute _ _ => none
  | Command.Resolve _ _ => none
  | Command.Chargeback _ _ => none

/-- The command is turned away by one of the checks of
`process_single_command` (duplicate transaction id, locked account,
insufficient funds, missing transaction record, owning-client mismatch,
wrong record status, or — for chargebacks only — a missing account),
mirroring the early returns of `src/engine/state.rs` in source order. -/
def rejects (s : State) (cmd : Command) : Bool :=
  match cmd with
  | Command.Deposit client tx _ =>
      (s.transactions tx).isSome || lockedOf (s.accounts client)
  | Command.Withdrawal client tx amount =>
      (s.transactions tx).isSome || lockedOf (s.accounts client) ||
        ! decide (amount ≤ ((s.accounts client).getD (emptyAccount client)).available)
  | Command.Dispute client tx =>
      lockedOf (s.accounts client) ||
        (match s.transactions tx with
         | none => true
         | some record =>
             decide (record.client_id ≠ client) || ! record.is_deposit ||
               decide (record.status ≠ TransactionStatus.Normal))
  | Command.Resolve client tx =>
      lockedOf (s.accounts client) ||
        (match s.transactions tx with
         | none => true
         | some record =>
             decide (record.client_id ≠ client) ||
               decide (record.status ≠ TransactionStatus.Disputed))
  | Command.Chargeback client tx =>
      match s.transactions tx with
      | none => true
      | some record =>
          decide (record.client_id ≠ client) ||
            decide (record.status ≠ TransactionStatus.Disputed) ||
            (s.accounts client).isNone || lockedOf (s.accounts client)

/-- Referential integrity: every transaction record's owning client has an
account. -/
def RecordAccountInv (s : State) : Prop :=
  ∀ tx r, s.transactions tx = some r → ((s.accounts r.client_id).isSome = true)

/-- The three-command scenario of the balance-conservation property:
deposit, dispute it, resolve it. -/
def depositDisputeResolve (s : State) (client tx : Nat) (amount : Decimal) : State :=
  State.run s
    [Command.Deposit client tx amount, Command.Dispute client tx,
      Command.Resolve client tx]

example :
    (State.run State.empty
      [Command.Deposit 1 1 (Decimal.ofInt 10),
        Command.Withdrawal 1 2 (Decimal.ofInt 3)]).accounts 1 =
      some { client_id := 1, available := ⟨7, 0⟩, held := ⟨0, 0⟩,
             locked := false } := by
  decide

example :
    (State.run State.empty
      [Command.Deposit 3 20 ⟨25, 1⟩, Command.Dispute 3 20,
        Command.Chargeback 3 20, Command.Deposit 3 21 (Decimal.ofInt 1)]).accounts 3 =
      some { client_id := 3, available := ⟨0, 1⟩, held := ⟨0, 1⟩,
             locked := true } := by
  decide

example :
    (State.run State.empty
      [Command.Deposit 42 100 (Decimal.ofInt 10),
        Command.Withdrawal 42 101 (Decimal.ofInt 10),
        Command.Dispute 42 100]).accounts 42 =
      some { client_id := 42, available := ⟨-10, 0⟩, held := ⟨10, 0⟩,
             locked := false } := by
  decide

@[simp]
theorem upd_self {α : Type} (m : Nat → Option α) (k : Nat) (v : α) :
    upd m k v k = some v := by
  simp [upd]

theorem upd_of_ne {α : Type} (m : Nat → Option α) (k : Nat) (v : α) {c : Nat}
    (h : c ≠ k) : upd m k v c = m c := by
  simp [upd, h]

theorem Decimal.zero_le_iff (a : Decimal) :
    Decimal.zero ≤ a ↔ 0 ≤ a.mantissa := by
  show Decimal.le Decimal.zero a ↔ _
  simp [Decimal.le, Decimal.alignL, Decimal.zero]

theorem Decimal.le_zero_iff (a : Decimal) :
    a ≤ Decimal.zero ↔ a.mantissa ≤ 0 := by
  show Decimal.le a Decimal.zero ↔ _
  simp [Decimal.le, Decimal.alignL, Decimal.zero]

theorem Decimal.lt_zero_iff (a : Decimal) :
    a < Decimal.zero ↔ a.mantissa < 0 := by
  show Decimal.lt a Decimal.zero ↔ _
  simp [Decimal.lt, Decimal.alignL, Decimal.zero]

theorem Decimal.zero_lt_iff (a : Decimal) :
    Decimal.zero < a ↔ 0 < a.mantissa := by
  show Decimal.lt Decimal.zero a ↔ _
  simp [Decimal.lt, Decimal.alignL, Decimal.zero]

theorem Decimal.add_nonneg {a b : Decimal} (ha : Decimal.zero ≤ a)
    (hb : Decimal.zero ≤ b) : Decimal.zero ≤ a + b := by
  rw [Decimal.zero_le_iff] at ha hb ⊢
  show 0 ≤ Decimal.alignL a b + Decimal.alignL b a
  have h1 : 0 ≤ Decimal.alignL a b :=
    mul_nonneg ha (pow_nonneg (by norm_num) _)
  have h2 : 0 ≤ Decimal.alignL b a :=
    mul_nonneg hb (pow_nonneg (by norm_num) _)
  omega

theorem Decimal.sub_nonneg_of_le {a b : Decimal} (h : b ≤ a) :
    Decimal.zero ≤ a - b := by
  rw [Decimal.zero_le_iff]
  have h' : Decimal.alignL b a ≤ Decimal.alignL a b := h
  show 0 ≤ Decimal.alignL a b - Decimal.alignL b a
  omega

theorem Decimal.zero_le_of_not_lt_zero {a : Decimal} (h : ¬ a < Decimal.zero) :
    Decimal.zero ≤ a := by
  rw [Decimal.lt_zero_iff] at h
  rw [Decimal.zero_le_iff]
  omega

theorem Decimal.not_le_of_zero_lt {a : Decimal} (h : Decimal.zero < a) :
    ¬ a ≤ Decimal.zero := by
  rw [Decimal.zero_lt_iff] at h
  rw [Decimal.le_zero_iff]
  omega

theorem Decimal.eqv_refl (a : Decimal) : Decimal.eqv a a := rfl

theorem Decimal.add_sub_cancel_mk (x y : Decimal) :
    (x + y) - y =
      ⟨x.mantissa * (10 : Int) ^ (max x.scale y.scale - x.scale),
        max x.scale y.scale⟩ := by
  show Decimal.sub (Decimal.add x y) y = _
  simp only [Decimal.add, Decimal.sub, Decimal.alignL]
  have hs : max (max x.scale y.scale) y.scale = max x.scale y.scale := by
    simp [Nat.max_comm, Nat.max_assoc]
  have hys : max y.scale (max x.scale y.scale) = max x.scale y.scale := by
    simp [Nat.max_comm, Nat.max_assoc]
  have hc : max y.scale x.scale = max x.scale y.scale := Nat.max_comm _ _
  simp only [hs, hys, hc, Nat.sub_self, pow_zero, mul_one]
  exact Decimal.mk.injEq _ _ _ _ ▸ ⟨add_sub_cancel_right _ _, rfl⟩

theorem Decimal.rescale_eqv (x : Decimal) (m : Nat) (h : x.scale ≤ m) :
    Decimal.eqv ⟨x.mantissa * (10 : Int) ^ (m - x.scale), m⟩ x := by
  simp only [Decimal.eqv, Decimal.alignL]
  have h1 : max m x.scale = m := Nat.max_eq_left h
  have h2 : max x.scale m = m := Nat.max_eq_right h
  simp [h1, h2, Nat.sub_self]

theorem Decimal.sub_add_cancel_of_add (x y : Decimal) :
    ((x + y) - y) + y = x + y := by
  rw [Decimal.add_sub_cancel_mk]
  show Decimal.add _ y = Decimal.add x y
  simp only [Decimal.add, Decimal.alignL]
  have h1 : max (max x.scale y.scale) y.scale = max x.scale y.scale := by
    simp [Nat.max_comm, Nat.max_assoc]
  have h2 : max y.scale (max x.scale y.scale) = max x.scale y.scale := by
    simp [Nat.max_comm, Nat.max_assoc]
  have hc : max y.scale x.scale = max x.scale y.scale := Nat.max_comm _ _
  simp [h1, h2, hc, Nat.sub_self]

theorem Decimal.add_sub_cancel_eqv (x y : Decimal) :
    Decimal.eqv ((x + y) - y) x := by
  rw [Decimal.add_sub_cancel_mk]
  exact Decimal.rescale_eqv x _ (Nat.le_max_left _ _)

theorem lockedOf_getD_false {o : Option Account} {client : Nat}
    (h : lockedOf o = false) :
    (o.getD (emptyAccount client)).locked = false := by
  cases o with
  | none => rfl
  | some a => exact h

theorem upd_isSome {α : Type} (m : Nat → Option α) (k : Nat) (v : α) (c : Nat)
    (h : (m c).isSome = true) : (upd m k v c).isSome = true := by
  simp only [upd]
  split <;> simp [h]

theorem transactions_isSome_mono (s : State) (cmd : Command) (tx : Nat)
    (h : (s.transactions tx).isSome = true) :
    ((s.process_single_command cmd).transactions tx).isSome = true := by
  cases cmd with
  | Deposit client tx2 amount =>
      by_cases hd : (s.transactions tx2).isSome
      · simpa [State.process_single_command, hd] using h
      · by_cases hl : lockedOf (s.accounts client)
        · simpa [State.process_single_command, hd, hl] using h
        · simpa [State.process_single_command, hd, hl] using
            upd_isSome s.transactions tx2 _ tx h
  | Withdrawal client tx2 amount =>
      by_cases hd : (s.transactions tx2).isSome
      · simpa [State.process_single_command, hd] using h
      · by_cases hl : lockedOf (s.accounts client)
        · simpa [State.process_single_command, hd, hl] using h
        · by_cases hf :
            amount ≤ ((s.accounts client).getD (emptyAccount client)).available
          · simpa [State.process_single_command, hd, hl, hf] using
              upd_isSome s.transactions tx2 _ tx h
          · simpa [State.process_single_command, hd, hl, hf] using h
  | Dispute client tx2 =>
      by_cases hl : lockedOf (s.accounts client)
      · simpa [State.process_single_command, hl] using h
      · rcases htx2 : s.transactions tx2 with _ | record
        · simpa [State.process_single_command, hl, htx2] using h
        · by_cases hc : record.client_id = client
          · by_cases hg : record.is_deposit = false ∨
                record.status ≠ TransactionStatus.Normal
            · simpa [State.process_single_command, hl, htx2, hc, hg] using h
            · rcases hacc : s.accounts client with _ | account
              · simpa [State.process_single_command, hl, htx2, hc, hg, hacc]
                  using upd_isSome s.transactions tx2 _ tx h
              · rw [hacc] at hl
                simpa [State.process_single_command, hl, htx2, hc, hg, hacc]
                  using upd_isSome s.transactions tx2 _ tx h
          · simpa [State.process_single_command, hl, htx2, hc] using h
  | Resolve client tx2 =>
      by_cases hl : lockedOf (s.accounts client)
      · simpa [State.process_single_command, hl] using h
      · rcases htx2 : s.transactions tx2 with _ | record
        · simpa [State.process_single_command, hl, htx2] using h
        · by_cases hc : record.client_id = client
          · by_cases hg : record.status ≠ TransactionStatus.Disputed
            · simpa [State.process_single_command, hl, htx2, hc, hg] using h
            · rcases hacc : s.accounts client with _ | account
              · simpa [State.process_single_command, hl, htx2, hc, hg, hacc]
                  using upd_isSome s.transactions tx2 _ tx h
              · rw [hacc] at hl
                simpa [State.process_single_command, hl, htx2, hc, hg, hacc]
                  using upd_isSome s.transactions tx2 _ tx h
          · simpa [State.process_single_command, hl, htx2, hc] using h
  | Chargeback client tx2 =>
      rcases htx2 : s.transactions tx2 with _ | record
      · simpa [State.process_single_command, htx2] using h
      · by_cases hg : record.client_id ≠ client ∨
            record.status ≠ TransactionStatus.Disputed
        · simpa [State.process_single_command, htx2, hg] using h
        · rcases hacc : s.accounts client with _ | account
          · simpa [State.process_single_command, htx2, hg, hacc] using h
          · by_cases hl : account.locked
            · simpa [State.process_single_command, htx2, hg, hacc, hl] using h
            · simpa [State.process_single_command, htx2, hg, hacc, hl] using
                upd_isSome s.transactions tx2 _ tx h

theorem accounts_other_unchanged (s : State) (cmd : Command) (c : Nat)
    (h : c ≠ cmd.clientOf) :
    (s.process_single_command cmd).accounts c = s.accounts c := by
  cases cmd <;>
    simp only [Command.clientOf] at h <;>
    simp only [State.process_single_command] <;>
    (repeat' split) <;>
    first
      | rfl
      | exact upd_of_ne _ _ _ h

theorem locked_noop (s : State) (client : Nat) (account : Account)
    (hacc : s.accounts client = some account) (hl : account.locked = true)
    (cmd : Command) (hc : cmd.clientOf = client) :
    s.process_single_command cmd = s := by
  have hlock : lockedOf (s.accounts client) = true := by rw [hacc]; exact hl
  cases cmd with
  | Deposit c tx amount =>
      simp only [Command.clientOf] at hc
      subst hc
      by_cases hd : (s.transactions tx).isSome
      · simp [State.process_single_command, hd]
      · simp [State.process_single_command, hd, hlock]
  | Withdrawal c tx amount =>
      simp only [Command.clientOf] at hc
      subst hc
      by_cases hd : (s.transactions tx).isSome
      · simp [State.process_single_command, hd]
      · simp [State.process_single_command, hd, hlock]
  | Dispute c tx =>
      simp only [Command.clientOf] at hc
      subst hc
      simp [State.process_single_command, hlock]
  | Resolve c tx =>
      simp only [Command.clientOf] at hc
      subst hc
      simp [State.process_single_command, hlock]
  | Chargeback c tx =>
      simp only [Command.clientOf] at hc
      subst hc
      rcases htx : s.transactions tx with _ | record
      · simp [State.process_single_command, htx]
      · by_cases hg : record.client_id ≠ c ∨
            record.status ≠ TransactionStatus.Disputed
        · simp [State.process_single_command, htx, hg]
        · simp [State.process_single_command, htx, hg, hacc, hl]

theorem locked_frozen (s : State) (client : Nat) (account : Account)
    (hacc : s.accounts client = some account) (hl : account.locked = true)
    (cmd : Command) :
    (s.process_single_command cmd).accounts client = some account := by
  by_cases hc : cmd.clientOf = client
  · rw [locked_noop s client account hacc hl cmd hc]
    exact hacc
  · rw [accounts_other_unchanged s cmd client (fun hh => hc hh.symm)]
    exact hacc

/-- C8.  For every transaction record present in the state, applying any
single command keeps the record (same owning client, amount and kind) and
either leaves its status unchanged or moves it one step along
Normal → Disputed → (Normal or ChargedBack): it enters Disputed only from
Normal by a dispute of a deposit, re-enters Normal only from Disputed by a
resolve, enters ChargedBack only from Disputed by a chargeback, and a
ChargedBack status never changes again; records are never deleted. -/
theorem C8_record_transitions (s : State) (cmd : Command) (tx : Nat)
    (r : TransactionRecord) (h : s.transactions tx = some r) :
    ∃ r2, (s.process_single_command cmd).transactions tx = some r2 ∧
      r2.client_id = r.client_id ∧ r2.amount = r.amount ∧
      r2.is_deposit = r.is_deposit ∧
      (r2.status = r.status ∨
        (r.status = TransactionStatus.Normal ∧
          r2.status = TransactionStatus.Disputed ∧ r.is_deposit = true ∧
          cmd = Command.Dispute r.client_id tx) ∨
        (r.status = TransactionStatus.Disputed ∧
          r2.status = TransactionStatus.Normal ∧
          cmd = Command.Resolve r.client_id tx) ∨
        (r.status = TransactionStatus.Disputed ∧
          r2.status = TransactionStatus.ChargedBack ∧
          cmd = Command.Chargeback r.client_id tx)) := by
  have hsome : (s.transactions tx).isSome = true := by rw [h]; rfl
  cases cmd with
  | Deposit client tx2 amount =>
      by_cases hd : (s.transactions tx2).isSome
      · exact ⟨r, by simpa [State.process_single_command, hd] using h,
          rfl, rfl, rfl, Or.inl rfl⟩
      · have hne : tx ≠ tx2 := fun he => hd (he ▸ hsome)
        by_cases hl : lockedOf (s.accounts client)
        · exact ⟨r, by simpa [State.process_single_command, hd, hl] using h,
            rfl, rfl, rfl, Or.inl rfl⟩
        · refine ⟨r, ?_, rfl, rfl, rfl, Or.inl rfl⟩
          simp only [State.process_single_command, hd, hl]
          simpa [upd_of_ne _ _ _ hne] using h
  | Withdrawal client tx2 amount =>
      by_cases hd : (s.transactions tx2).isSome
      · exact ⟨r, by simpa [State.process_single_command, hd] using h,
          rfl, rfl, rfl, Or.inl rfl⟩
      · have hne : tx ≠ tx2 := fun he => hd (he ▸ hsome)
        by_cases hl : lockedOf (s.accounts client)
        · exact ⟨r, by simpa [State.process_single_command, hd, hl] using h,
            rfl, rfl, rfl, Or.inl rfl⟩
        · by_cases hf :
            amount ≤ ((s.accounts client).getD (emptyAccount client)).available
          · refine ⟨r, ?_, rfl, rfl, rfl, Or.inl rfl⟩
            simp only [State.process_single_command, hd, hl]
            simpa [hf, upd_of_ne _ _ _ hne] using h
          · refine ⟨r, ?_, rfl, rfl, rfl, Or.inl rfl⟩
            simp only [State.process_single_command, hd, hl]
            simpa [hf] using h
  | Dispute client tx2 =>
      by_cases hl : lockedOf (s.accounts client)
      · exact ⟨r, by simpa [State.process_single_command, hl] using h,
          rfl, rfl, rfl, Or.inl rfl⟩
      · rcases htx2 : s.transactions tx2 with _ | record
        · exact ⟨r, by simpa [State.process_single_command, hl, htx2] using h,
            rfl, rfl, rfl, Or.inl rfl⟩
        · by_cases hmatch : record.client_id = client
          · by_cases hg : record.is_deposit = false ∨
                record.status ≠ TransactionStatus.Normal
            · exact ⟨r,
                by simpa [State.process_single_command, hl, htx2, hmatch, hg]
                  using h, rfl, rfl, rfl, Or.inl rfl⟩
            · push_neg at hg
              by_cases hne : tx2 = tx
              · subst hne
                have hr : record = r := by
                  rw [htx2] at h
                  exact Option.some.inj h
                subst hr
                refine ⟨{ record with status := TransactionStatus.Disputed },
                  ?_, rfl, rfl, rfl, ?_⟩
                · rcases hacc : s.accounts client with _ | account
                  · simp [State.process_single_command, hl, htx2, hmatch, hg,
                      hacc, lockedOf]
                  · rw [hacc] at hl
                    simp [State.process_single_command, hl, htx2, hmatch, hg,
                      hacc]
                · refine Or.inr (Or.inl ⟨hg.2, rfl, ?_, ?_⟩)
                  · cases hb : record.is_deposit
                    · exact absurd hb hg.1
                    · rfl
                  · rw [hmatch]
              · refine ⟨r, ?_, rfl, rfl, rfl, Or.inl rfl⟩
                rcases hacc : s.accounts client with _ | account
                · simp only [State.process_single_command, hl, htx2]
                  simpa [hmatch, hg, hacc, lockedOf,
                    upd_of_ne _ _ _ (Ne.symm hne)] using h
                · rw [hacc] at hl
                  simp only [State.process_single_command, htx2]
                  simpa [hl, hmatch, hg, hacc, upd_of_ne _ _ _ (Ne.symm hne)]
                    using h
          · exact ⟨r,
              by simpa [State.process_single_command, hl, htx2, hmatch]
                using h, rfl, rfl, rfl, Or.inl rfl⟩
  | Resolve client tx2 =>
      by_cases hl : lockedOf (s.accounts client)
      · exact ⟨r, by simpa [State.process_single_command, hl] using h,
          rfl, rfl, rfl, Or.inl rfl⟩
      · rcases htx2 : s.transactions tx2 with _ | record
        · exact ⟨r, by simpa [State.process_single_command, hl, htx2] using h,
            rfl, rfl, rfl, Or.inl rfl⟩
        · by_cases hmatch : record.client_id = client
          · by_cases hg : record.status ≠ TransactionStatus.Disputed
            · exact ⟨r,
                by simpa [State.process_single_command, hl, htx2, hmatch, hg]
                  using h, rfl, rfl, rfl, Or.inl rfl⟩
            · push_neg at hg
              by_cases hne : tx2 = tx
              · subst hne
                have hr : record = r := by
                  rw [htx2] at h
                  exact Option.some.inj h
                subst hr
                refine ⟨{ record with status := TransactionStatus.Normal },
                  ?_, rfl, rfl, rfl,
                  Or.inr (Or.inr (Or.inl ⟨hg, rfl, by rw [hmatch]⟩))⟩
                rcases hacc : s.accounts client with _ | account
                · simp [State.process_single_command, hl, htx2, hmatch, hg,
                    hacc, lockedOf]
                · rw [hacc] at hl
                  simp [State.process_single_command, hl, htx2, hmatch, hg,
                    hacc]
              · refine ⟨r, ?_, rfl, rfl, rfl, Or.inl rfl⟩
                rcases hacc : s.accounts client with _ | account
                · simp only [State.process_single_command, hl, htx2]
                  simpa [hmatch, hg, hacc, lockedOf,
                    upd_of_ne _ _ _ (Ne.symm hne)] using h
                · rw [hacc] at hl
                  simp only [State.process_single_command, htx2]
                  simpa [hl, hmatch, hg, hacc, upd_of_ne _ _ _ (Ne.symm hne)]
                    using h
          · exact ⟨r,
              by simpa [State.process_single_command, hl, htx2, hmatch]
                using h, rfl, rfl, rfl, Or.inl rfl⟩
  | Chargeback client tx2 =>
      rcases htx2 : s.transactions tx2 with _ | record
      · exact ⟨r, by simpa [State.process_single_command, htx2] using h,
          rfl, rfl, rfl, Or.inl rfl⟩
      · by_cases hg : record.client_id ≠ client ∨
            record.status ≠ TransactionStatus.Disputed
        · exact ⟨r, by simpa [State.process_single_command, htx2, hg] using h,
            rfl, rfl, rfl, Or.inl rfl⟩
        · push_neg at hg
          rcases hacc : s.accounts client with _ | account
          · exact ⟨r,
              by simpa [State.process_single_command, htx2, hg, hacc] using h,
              rfl, rfl, rfl, Or.inl rfl⟩
          · by_cases hl : account.locked
            · exact ⟨r,
                by simpa [State.process_single_command, htx2, hg, hacc, hl]
                  using h, rfl, rfl, rfl, Or.inl rfl⟩
            · by_cases hne : tx2 = tx
              · subst hne
                have hr : record = r := by
                  rw [htx2] at h
                  exact Option.some.inj h
                subst hr
                refine ⟨{ record with status := TransactionStatus.ChargedBack },
                  ?_, rfl, rfl, rfl,
                  Or.inr (Or.inr (Or.inr ⟨hg.2, rfl, by rw [hg.1]⟩))⟩
                simp [State.process_single_command, htx2, hg.1, hg.2, hacc, hl]
              · refine ⟨r, ?_, rfl, rfl, rfl, Or.inl rfl⟩
                simp only [State.process_single_command, htx2]
                simpa [hg.1, hg.2, hacc, hl, upd_of_ne _ _ _ (Ne.symm hne)]
                  using h

/-- Witness for C8: disputing the deposit under transaction id 1 keeps a
record stored under that id. -/
theorem C8_record_transitions_witness :
    (((State.run State.empty
        [Command.Deposit 1 1 (Decimal.ofInt 10)]).process_single_command
          (Command.Dispute 1 1)).transactions 1).isSome = true := by
  obtain ⟨r2, h2, -⟩ :=
    C8_record_transitions
      (State.run State.empty [Command.Deposit 1 1 (Decimal.ofInt 10)])
      (Command.Dispute 1 1) 1
      { client_id := 1, amount := Decimal.ofInt 10, is_deposit := true,
        status := TransactionStatus.Normal }
      (by decide)
  rw [h2]
  rfl

theorem accounts_isSome_mono (s : State) (cmd : Command) (c : Nat)
    (h : (s.accounts c).isSome = true) :
    ((s.process_single_command cmd).accounts c).isSome = true := by
  cases cmd <;>
    simp only [State.process_single_command] <;>
    (repeat' split) <;>
    first
      | exact h
      | exact upd_isSome _ _ _ _ h

theorem inv_step (s : State) (cmd : Command) (inv : RecordAccountInv s) :
    RecordAccountInv (s.process_single_command cmd) := by
  cases cmd with
  | Deposit client tx2 amount =>
      by_cases hd : (s.transactions tx2).isSome
      · simpa [State.process_single_command, hd] using inv
      · by_cases hl : lockedOf (s.accounts client)
        · simpa [State.process_single_command, hd, hl] using inv
        · intro tx r hr
          simp [State.process_single_command, hd, hl] at hr ⊢
          by_cases hne : tx = tx2
          · subst hne
            rw [upd_self] at hr
            have hrc : r.client_id = client := by
              rw [← Option.some.inj hr]
            simp [hrc, upd]
          · rw [upd_of_ne _ _ _ hne] at hr
            exact upd_isSome _ _ _ _ (inv tx r hr)
  | Withdrawal client tx2 amount =>
      by_cases hd : (s.transactions tx2).isSome
      · simpa [State.process_single_command, hd] using inv
      · by_cases hl : lockedOf (s.accounts client)
        · simpa [State.process_single_command, hd, hl] using inv
        · by_cases hf :
            amount ≤ ((s.accounts client).getD (emptyAccount client)).available
          · intro tx r hr
            simp [State.process_single_command, hd, hl, hf] at hr ⊢
            by_cases hne : tx = tx2
            · subst hne
              rw [upd_self] at hr
              have hrc : r.client_id = client := by
                rw [← Option.some.inj hr]
              simp [hrc, upd]
            · rw [upd_of_ne _ _ _ hne] at hr
              exact upd_isSome _ _ _ _ (inv tx r hr)
          · intro tx r hr
            simp [State.process_single_command, hd, hl, hf] at hr ⊢
            exact upd_isSome _ _ _ _ (inv tx r hr)
  | Dispute client tx2 =>
      by_cases hl : lockedOf (s.accounts client)
      · simpa [State.process_single_command, hl] using inv
      · rcases htx2 : s.transactions tx2 with _ | record
        · simpa [State.process_single_command, hl, htx2] using inv
        · by_cases hmatch : record.client_id = client
          · by_cases hg : record.is_deposit = false ∨
                record.status ≠ TransactionStatus.Normal
            · simpa [State.process_single_command, hl, htx2, hmatch, hg]
                using inv
            · rcases hacc : s.accounts client with _ | account
              · intro tx r hr
                simp [State.process_single_command, hl, htx2, hmatch, hg,
                  hacc, lockedOf] at hr ⊢
                by_cases hne : tx = tx2
                · subst hne
                  rw [upd_self] at hr
                  have hrc : r.client_id = record.client_id := by
                    rw [← Option.some.inj hr]
                    exact hmatch.symm
                  rw [hrc]
                  exact inv tx record htx2
                · rw [upd_of_ne _ _ _ hne] at hr
                  exact inv tx r hr
              · intro tx r hr
                rw [hacc] at hl
                simp [State.process_single_command, hl, htx2, hmatch, hg,
                  hacc] at hr ⊢
                by_cases hne : tx = tx2
                · subst hne
                  rw [upd_self] at hr
                  have hrc : r.client_id = record.client_id := by
                    rw [← Option.some.inj hr]
                    exact hmatch.symm
                  rw [hrc, hmatch]
                  simp [upd]
                · rw [upd_of_ne _ _ _ hne] at hr
                  exact upd_isSome _ _ _ _ (inv tx r hr)
          · simpa [State.process_single_command, hl, htx2, hmatch] using inv
  | Resolve client tx2 =>
      by_cases hl : lockedOf (s.accounts client)
      · simpa [State.process_single_command, hl] using inv
      · rcases htx2 : s.transactions tx2 with _ | record
        · simpa [State.process_single_command, hl, htx2] using inv
        · by_cases hmatch : record.client_id = client
          · by_cases hg : record.status ≠ TransactionStatus.Disputed
            · simpa [State.process_single_command, hl, htx2, hmatch, hg]
                using inv
            · rcases hacc : s.accounts client with _ | account
              · intro tx r hr
                simp [State.process_single_command, hl, htx2, hmatch, hg,
                  hacc, lockedOf] at hr ⊢
                by_cases hne : tx = tx2
                · subst hne
                  rw [upd_self] at hr
                  have hrc : r.client_id = record.client_id := by
                    rw [← Option.some.inj hr]
                    exact hmatch.symm
                  rw [hrc]
                  exact inv tx record htx2
                · rw [upd_of_ne _ _ _ hne] at hr
                  exact inv tx r hr
              · intro tx r hr
                rw [hacc] at hl
                simp [State.process_single_command, hl, htx2, hmatch, hg,
                  hacc] at hr ⊢
                by_cases hne : tx = tx2
                · subst hne
                  rw [upd_self] at hr
                  have hrc : r.client_id = record.client_id := by
                    rw [← Option.some.inj hr]
                    exact hmatch.symm
                  rw [hrc, hmatch]
                  simp [upd]
                · rw [upd_of_ne _ _ _ hne] at hr
                  exact upd_isSome _ _ _ _ (inv tx r hr)
          · simpa [State.process_single_command, hl, htx2, hmatch] using inv
  | Chargeback client tx2 =>
      rcases htx2 : s.transactions tx2 with _ | record
      · simpa [State.process_single_command, htx2] using inv
      · by_cases hg : record.client_id ≠ client ∨
            record.status ≠ TransactionStatus.Disputed
        · simpa [State.process_single_command, htx2, hg] using inv
        · push_neg at hg
          rcases hacc : s.accounts client with _ | account
          · simpa [State.process_single_command, htx2, hg.1, hg.2, hacc]
              using inv
          · by_cases hl : account.locked
            · simpa [State.process_single_command, htx2, hg.1, hg.2, hacc, hl]
                using inv
            · intro tx r hr
              simp [State.process_single_command, htx2, hg.1, hg.2, hacc,
                hl] at hr ⊢
              by_cases hne : tx = tx2
              · subst hne
                rw [upd_self] at hr
                have hrc : r.client_id = record.client_id := by
                  rw [← Option.some.inj hr]
                  exact hg.1.symm
                rw [hrc, hg.1]
                simp [upd]
              · rw [upd_of_ne _ _ _ hne] at hr
                exact upd_isSome _ _ _ _ (inv tx r hr)

/-- C7.  Lock finality: once an account is locked (as a chargeback leaves
it), running any further command sequence leaves that account — available,
held and the locked flag — exactly as it was, and in any later state every
command naming that client (deposit, withdrawal, dispute, resolve or
chargeback) is a complete no-op on the whole state. -/
theorem C7_lock_finality (s : State) (client : Nat) (account : Account)
    (hacc : s.accounts client = some account) (hl : account.locked = true)
    (cmds : List Command) :
    (State.run s cmds).accounts client = some account ∧
    ∀ cmd, cmd.clientOf = client →
      (State.run s cmds).process_single_command cmd = State.run s cmds := by
  induction cmds generalizing s with
  | nil =>
      exact ⟨hacc, fun cmd hc => locked_noop s client account hacc hl cmd hc⟩
  | cons cmd cmds ih =>
      have h1 := locked_frozen s client account hacc hl cmd
      have h2 := ih (s.process_single_command cmd) h1
      simpa [State.run] using h2

/-- Witness for C7: after a chargeback locks account 1, a later deposit and
withdrawal leave it untouched. -/
theorem C7_lock_finality_witness :
    (State.run
        (State.run State.empty
          [Command.Deposit 1 1 (Decimal.ofInt 10), Command.Dispute 1 1,
            Command.Chargeback 1 1])
        [Command.Deposit 1 2 (Decimal.ofInt 5),
          Command.Withdrawal 1 3 (Decimal.ofInt 1)]).accounts 1 =
      some { client_id := 1, available := ⟨0, 0⟩, held := ⟨0, 0⟩,
             locked := true } :=
  (C7_lock_finality
    (State.run State.empty
      [Command.Deposit 1 1 (Decimal.ofInt 10), Command.Dispute 1 1,
        Command.Chargeback 1 1])
    1
    { client_id := 1, available := ⟨0, 0⟩, held := ⟨0, 0⟩, locked := true }
    (by decide) rfl
    [Command.Deposit 1 2 (Decimal.ofInt 5),
      Command.Withdrawal 1 3 (Decimal.ofInt 1)]).1

/-- C10.  In every state reachable from the empty state, every transaction
record's owning client has an account; consequently, whenever a dispute
passes the record checks (record present, matching client, undisputed
deposit, account not locked), the account lookup succeeds and the status
change to Disputed is always accompanied by the move of the amount from
available to held on the owning account. -/
theorem C10_referential_integrity (cmds : List Command) :
    RecordAccountInv (State.run State.empty cmds) ∧
    ∀ client tx r,
      (State.run State.empty cmds).transactions tx = some r →
      r.client_id = client → r.is_deposit = true →
      r.status = TransactionStatus.Normal →
      lockedOf ((State.run State.empty cmds).accounts client) = false →
      ∃ account,
        (State.run State.empty cmds).accounts client = some account ∧
        ((State.run State.empty cmds).process_single_command
            (Command.Dispute client tx)).accounts client =
          some { account with
                 available := account.available - r.amount,
                 held := account.held + r.amount } ∧
        ((State.run State.empty cmds).process_single_command
            (Command.Dispute client tx)).transactions tx =
          some { r with status := TransactionStatus.Disputed } := by
  have hinv : RecordAccountInv (State.run State.empty cmds) := by
    have haux : ∀ s, RecordAccountInv s → RecordAccountInv (State.run s cmds) := by
      induction cmds with
      | nil => exact fun s h => h
      | cons cmd cmds ih =>
          intro s hs
          simpa [State.run] using ih (s.process_single_command cmd)
            (inv_step s cmd hs)
    exact haux State.empty (fun tx r hr => by cases hr)
  refine ⟨hinv, ?_⟩
  intro client tx r htx hrc hdep hst hlock
  have hsome : ((State.run State.empty cmds).accounts client).isSome = true := by
    rw [← hrc]
    exact hinv tx r htx
  rcases hex : (State.run State.empty cmds).accounts client with _ | account
  · rw [hex] at hsome
    cases hsome
  · rw [hex] at hlock
    have hlk : account.locked = false := hlock
    refine ⟨account, rfl, ?_, ?_⟩
    · simp [State.process_single_command, htx, hrc, hdep, hst, hex, hlock,
        hlk, lockedOf]
    · simp [State.process_single_command, htx, hrc, hdep, hst, hex, hlock,
        hlk, lockedOf]

/-- Witness for C10: disputing the deposit under transaction id 1 both
marks the record Disputed and moves the amount into held. -/
theorem C10_referential_integrity_witness :
    ((State.run State.empty
        [Command.Deposit 1 1 (Decimal.ofInt 10)]).process_single_command
          (Command.Dispute 1 1)).transactions 1 =
      some { client_id := 1, amount := Decimal.ofInt 10, is_deposit := true,
             status := TransactionStatus.Disputed } := by
  obtain ⟨account, -, -, h3⟩ :=
    (C10_referential_integrity [Command.Deposit 1 1 (Decimal.ofInt 10)]).2
      1 1
      { client_id := 1, amount := Decimal.ofInt 10, is_deposit := true,
        status := TransactionStatus.Normal }
      (by decide) rfl rfl rfl (by decide)
  exact h3

theorem noop_state_conclusion (s : State) (cmd : Command)
    (he : s.process_single_command cmd = s) :
    (s.process_single_command cmd).transactions = s.transactions ∧
    (∀ c a, s.accounts c = some a →
      (s.process_single_command cmd).accounts c = some a) ∧
    (∀ c, s.accounts c = none →
      (s.process_single_command cmd).accounts c = none ∨
      (s.process_single_command cmd).accounts c = some (emptyAccount c)) := by
  rw [he]
  exact ⟨rfl, fun c a ha => ha, fun c hc => Or.inl hc⟩

/-- C1 counterexample.  A withdrawal from a previously unseen client is
rejected by the insufficient-funds check (no record is created), yet the
state is not left exactly unchanged: the rejected command has lazily
created the client's account. -/
theorem C1_counterexample :
    rejects State.empty (Command.Withdrawal 1 1 (Decimal.ofInt 5)) = true ∧
    (State.empty.process_single_command
        (Command.Withdrawal 1 1 (Decimal.ofInt 5))).transactions 1 = none ∧
    State.empty.accounts 1 = none ∧
    (State.empty.process_single_command
        (Command.Withdrawal 1 1 (Decimal.ofInt 5))).accounts 1 =
      some (emptyAccount 1) := by
  decide

/-- C1 (amended).  A command turned away by one of the checks performs no
transaction-map mutation and leaves every pre-existing account exactly
unchanged; the only state change a rejected command can make is the
insufficient-funds withdrawal storing the lazily created zero-balance
account of a previously unseen client. -/
theorem C1_amended_rejection_noop (s : State) (cmd : Command)
    (h : rejects s cmd = true) :
    (s.process_single_command cmd).transactions = s.transactions ∧
    (∀ c a, s.accounts c = some a →
      (s.process_single_command cmd).accounts c = some a) ∧
    (∀ c, s.accounts c = none →
      (s.process_single_command cmd).accounts c = none ∨
      (s.process_single_command cmd).accounts c = some (emptyAccount c)) := by
  cases cmd with
  | Deposit client tx amount =>
      apply noop_state_conclusion
      simp only [rejects, Bool.or_eq_true] at h
      rcases h with hd | hl
      · simp [State.process_single_command, hd]
      · simp [State.process_single_command, hl]
  | Withdrawal client tx amount =>
      simp only [rejects, Bool.or_eq_true] at h
      rcases h with (hd | hl) | hf
      · apply noop_state_conclusion
        simp [State.process_single_command, hd]
      · apply noop_state_conclusion
        simp [State.process_single_command, hl]
      · rw [Bool.not_eq_true', decide_eq_false_iff_not] at hf
        by_cases hd : (s.transactions tx).isSome
        · apply noop_state_conclusion
          simp [State.process_single_command, hd]
        · by_cases hl : lockedOf (s.accounts client)
          · apply noop_state_conclusion
            simp [State.process_single_command, hd, hl]
          · refine ⟨?_, ?_, ?_⟩
            · simp [State.process_single_command, hd, hl, hf]
            · intro c a ha
              simp only [State.process_single_command, hd, hl, hf]
              by_cases hc : c = client
              · subst hc
                simp [upd, ha]
              · simp [if_neg, upd_of_ne _ _ _ hc, ha]
            · intro c hc
              simp only [State.process_single_command, hd, hl, hf]
              by_cases hcc : c = client
              · subst hcc
                right
                simp [upd, hc]
              · left
                simp [upd_of_ne _ _ _ hcc, hc]
  | Dispute client tx =>
      apply noop_state_conclusion
      simp only [rejects, Bool.or_eq_true] at h
      by_cases hl : lockedOf (s.accounts client)
      · simp [State.process_single_command, hl]
      · rcases htx : s.transactions tx with _ | record
        · simp [State.process_single_command, hl, htx]
        · rw [htx] at h
          rcases h with hl2 | hrest
          · exact absurd hl2 hl
          · by_cases hm : record.client_id = client
            · by_cases hdep : record.is_deposit = false
              · simp [State.process_single_command, hl, htx, hm, hdep]
              · by_cases hst : record.status = TransactionStatus.Normal
                · exfalso
                  simp [hm, hst] at hrest
                  exact hdep hrest
                · simp [State.process_single_command, hl, htx, hm, hst]
            · simp [State.process_single_command, hl, htx, hm]
  | Resolve client tx =>
      apply noop_state_conclusion
      simp only [rejects, Bool.or_eq_true] at h
      by_cases hl : lockedOf (s.accounts client)
      · simp [State.process_single_command, hl]
      · rcases htx : s.transactions tx with _ | record
        · simp [State.process_single_command, hl, htx]
        · rw [htx] at h
          rcases h with hl2 | hrest
          · exact absurd hl2 hl
          · by_cases hm : record.client_id = client
            · by_cases hst : record.status = TransactionStatus.Disputed
              · exfalso
                simp [hm, hst] at hrest
              · simp [State.process_single_command, hl, htx, hm, hst]
            · simp [State.process_single_command, hl, htx, hm]
  | Chargeback client tx =>
      apply noop_state_conclusion
      simp only [rejects] at h
      rcases htx : s.transactions tx with _ | record
      · simp [State.process_single_command, htx]
      · rw [htx] at h
        by_cases hg : record.client_id ≠ client ∨
            record.status ≠ TransactionStatus.Disputed
        · simp [State.process_single_command, htx, hg]
        · push_neg at hg
          simp only [hg.1, hg.2] at h
          rcases hacc : s.accounts client with _ | account
          · simp [State.process_single_command, htx, hg.1, hg.2, hacc]
          · rw [hacc] at h
            simp [lockedOf] at h
            simp [State.process_single_command, htx, hg.1, hg.2, hacc, h]

/-- Witness for C1 (amended): a dispute of a missing transaction is
rejected and mutates nothing. -/
theorem C1_amended_rejection_noop_witness :
    ((State.run State.empty
        [Command.Deposit 1 1 (Decimal.ofInt 10)]).process_single_command
          (Command.Dispute 1 7)).transactions =
      (State.run State.empty [Command.Deposit 1 1 (Decimal.ofInt 10)]).transactions ∧
    ((State.run State.empty
        [Command.Deposit 1 1 (Decimal.ofInt 10)]).process_single_command
          (Command.Dispute 1 7)).accounts 1 =
      some { client_id := 1, available := ⟨10, 0⟩, held := ⟨0, 0⟩,
             locked := false } :=
  ⟨(C1_amended_rejection_noop
      (State.run State.empty [Command.Deposit 1 1 (Decimal.ofInt 10)])
      (Command.Dispute 1 7) (by decide)).1,
    (C1_amended_rejection_noop
      (State.run State.empty [Command.Deposit 1 1 (Decimal.ofInt 10)])
      (Command.Dispute 1 7) (by decide)).2.1 1
      { client_id := 1, available := ⟨10, 0⟩, held := ⟨0, 0⟩, locked := false }
      (by decide)⟩

/-- C2 counterexample.  On a reachable state whose account 1 is locked (by
a prior chargeback), the deposit of the deposit-dispute-resolve scenario is
itself rejected, so after the three commands there is no record at all
under the fresh transaction id 2 — contradicting the claim that the
record's status is Normal again for every starting state. -/
theorem C2_counterexample :
    (State.run State.empty
        [Command.Deposit 1 1 (Decimal.ofInt 10), Command.Dispute 1 1,
          Command.Chargeback 1 1]).accounts 1 =
      some { client_id := 1, available := ⟨0, 0⟩, held := ⟨0, 0⟩,
             locked := true } ∧
    (State.run State.empty
        [Command.Deposit 1 1 (Decimal.ofInt 10), Command.Dispute 1 1,
          Command.Chargeback 1 1]).transactions 2 = none ∧
    (depositDisputeResolve
        (State.run State.empty
          [Command.Deposit 1 1 (Decimal.ofInt 10), Command.Dispute 1 1,
            Command.Chargeback 1 1])
        1 2 (Decimal.ofInt 5)).transactions 2 = none := by
  decide

/-- C2 (amended).  Provided the client's account is absent or not locked
(in addition to the transaction id being fresh), depositing `amount`,
disputing it and resolving it returns available and held exactly — as
`rust_decimal` values — to what they were immediately after the deposit,
and the record under the id is a Normal deposit of `amount` again. -/
theorem C2_amended_balance_conservation (s : State) (client tx : Nat)
    (amount : Decimal)
    (hTx : s.transactions tx = none)
    (hLock : lockedOf (s.accounts client) = false) :
    ∃ acc1 acc3,
      (s.process_single_command (Command.Deposit client tx amount)).accounts
          client = some acc1 ∧
      (depositDisputeResolve s client tx amount).accounts client = some acc3 ∧
      Decimal.eqv acc3.available acc1.available ∧
      Decimal.eqv acc3.held acc1.held ∧
      (depositDisputeResolve s client tx amount).transactions tx =
        some { client_id := client, amount := amount, is_deposit := true,
               status := TransactionStatus.Normal } := by
  have hlk0 : ((s.accounts client).getD (emptyAccount client)).locked = false :=
    lockedOf_getD_false hLock
  have h1 : s.process_single_command (Command.Deposit client tx amount) =
      ⟨upd s.accounts client
          { (s.accounts client).getD (emptyAccount client) with
            available :=
              ((s.accounts client).getD (emptyAccount client)).available
                + amount },
        upd s.transactions tx
          { client_id := client, amount := amount, is_deposit := true,
            status := TransactionStatus.Normal }⟩ := by
    simp [State.process_single_command, hTx, hLock]
  refine
    ⟨{ (s.accounts client).getD (emptyAccount client) with
        available :=
          ((s.accounts client).getD (emptyAccount client)).available + amount },
      { (s.accounts client).getD (emptyAccount client) with
        available :=
          (((s.accounts client).getD (emptyAccount client)).available
            + amount - amount) + amount,
        held := (((s.accounts client).getD (emptyAccount client)).held
          + amount) - amount },
      ?_, ?_, ?_, ?_, ?_⟩
  · rw [h1]
    simp [upd]
  · simp only [depositDisputeResolve, State.run, List.foldl]
    rw [h1]
    simp [State.process_single_command, hlk0, upd, lockedOf]
  · show Decimal.eqv
      ((((s.accounts client).getD (emptyAccount client)).available + amount
        - amount) + amount)
      (((s.accounts client).getD (emptyAccount client)).available + amount)
    rw [Decimal.sub_add_cancel_of_add]
    exact Decimal.eqv_refl _
  · show Decimal.eqv
      ((((s.accounts client).getD (emptyAccount client)).held + amount)
        - amount)
      (((s.accounts client).getD (emptyAccount client)).held)
    exact Decimal.add_sub_cancel_eqv _ _
  · simp only [depositDisputeResolve, State.run, List.foldl]
    rw [h1]
    simp [State.process_single_command, hlk0, upd, lockedOf]

/-- Witness for C2 (amended): depositing 2.5, disputing and resolving it on
the empty state leaves the record a Normal deposit of 2.5. -/
theorem C2_amended_balance_conservation_witness :
    (depositDisputeResolve State.empty 1 1 ⟨25, 1⟩).transactions 1 =
      some { client_id := 1, amount := ⟨25, 1⟩, is_deposit := true,
             status := TransactionStatus.Normal } := by
  obtain ⟨acc1, acc3, -, -, -, -, h5⟩ :=
    C2_amended_balance_conservation State.empty 1 1 ⟨25, 1⟩ rfl rfl
  exact h5

/-- C3 counterexample.  A withdrawal under transaction id 1 is rejected for
insufficient funds (only the lazily created empty account appears, no
record), and a second command with the same id — a deposit — is then fully
applied: the second of two deposit-or-withdrawal commands sharing an id is
not always a no-op. -/
theorem C3_counterexample :
    (State.empty.process_single_command
        (Command.Withdrawal 1 1 (Decimal.ofInt 5))).accounts 1 =
      some (emptyAccount 1) ∧
    (State.empty.process_single_command
        (Command.Withdrawal 1 1 (Decimal.ofInt 5))).transactions 1 = none ∧
    ((State.empty.process_single_command
        (Command.Withdrawal 1 1 (Decimal.ofInt 5))).process_single_command
          (Command.Deposit 1 1 (Decimal.ofInt 10))).accounts 1 =
      some { client_id := 1, available := ⟨10, 0⟩, held := ⟨0, 0⟩,
             locked := false } ∧
    ((State.empty.process_single_command
        (Command.Withdrawal 1 1 (Decimal.ofInt 5))).process_single_command
          (Command.Deposit 1 1 (Decimal.ofInt 10))).transactions 1 =
      some { client_id := 1, amount := ⟨10, 0⟩, is_deposit := true,
             status := TransactionStatus.Normal } := by
  decide

/-- C3 (amended).  Once a deposit or withdrawal has been applied — a record
exists under its transaction id — every later deposit or withdrawal
carrying the same id, after any number of intervening commands, is a
complete no-op, whatever its amount. -/
theorem C3_amended_duplicate_suppression (s : State) (cmds : List Command)
    (client tx : Nat) (amount : Decimal)
    (h : (s.transactions tx).isSome = true) :
    (State.run s cmds).process_single_command
        (Command.Deposit client tx amount) = State.run s cmds ∧
    (State.run s cmds).process_single_command
        (Command.Withdrawal client tx amount) = State.run s cmds := by
  have haux : ∀ s2 : State, (s2.transactions tx).isSome = true →
      ((State.run s2 cmds).transactions tx).isSome = true := by
    induction cmds with
    | nil => exact fun s2 h2 => h2
    | cons cmd cmds ih =>
        intro s2 h2
        simpa [State.run] using
          ih (s2.process_single_command cmd)
            (transactions_isSome_mono s2 cmd tx h2)
  have hrun := haux s h
  constructor <;> simp [State.process_single_command, hrun]

/-- Witness for C3 (amended): with the deposit under id 1 applied, a later
deposit reusing id 1 leaves the state unchanged. -/
theorem C3_amended_duplicate_suppression_witness :
    (State.run (State.run State.empty [Command.Deposit 1 1 (Decimal.ofInt 10)])
        [Command.Deposit 2 2 (Decimal.ofInt 7)]).process_single_command
          (Command.Deposit 1 1 (Decimal.ofInt 99)) =
      State.run (State.run State.empty [Command.Deposit 1 1 (Decimal.ofInt 10)])
        [Command.Deposit 2 2 (Decimal.ofInt 7)] :=
  (C3_amended_duplicate_suppression
    (State.run State.empty [Command.Deposit 1 1 (Decimal.ofInt 10)])
    [Command.Deposit 2 2 (Decimal.ofInt 7)] 1 1 (Decimal.ofInt 99)
    (by decide)).1

/-- C4 counterexample.  A withdrawal whose transaction id duplicates an
existing record is rejected even though available exceeds the amount: being
applied is not equivalent to the funds check alone. -/
theorem C4_counterexample :
    (State.run State.empty [Command.Deposit 1 1 (Decimal.ofInt 10)]).accounts
        1 =
      some { client_id := 1, available := ⟨10, 0⟩, held := ⟨0, 0⟩,
             locked := false } ∧
    (Decimal.ofInt 5 ≤ (⟨10, 0⟩ : Decimal)) ∧
    ((State.run State.empty
        [Command.Deposit 1 1 (Decimal.ofInt 10)]).process_single_command
          (Command.Withdrawal 1 1 (Decimal.ofInt 5))).accounts 1 =
      some { client_id := 1, available := ⟨10, 0⟩, held := ⟨0, 0⟩,
             locked := false } ∧
    ((State.run State.empty
        [Command.Deposit 1 1 (Decimal.ofInt 10)]).process_single_command
          (Command.Withdrawal 1 1 (Decimal.ofInt 5))).transactions 1 =
      some { client_id := 1, amount := ⟨10, 0⟩, is_deposit := true,
             status := TransactionStatus.Normal } := by
  decide

/-- C4 (amended).  A withdrawal that passes the duplicate-id and
locked-account checks is applied — available decreased by the amount and a
Normal is_deposit=false record inserted — iff available is at least the
amount at that instant; when rejected, no record is created anywhere, the
lazily created account remains, and the untouched id is still reusable: a
deposit with the same id then succeeds. -/
theorem C4_amended_withdrawal_guard (s : State) (client tx : Nat)
    (amount : Decimal)
    (hTx : s.transactions tx = none)
    (hLock : lockedOf (s.accounts client) = false) :
    (amount ≤ ((s.accounts client).getD (emptyAccount client)).available →
      (s.process_single_command
          (Command.Withdrawal client tx amount)).accounts client =
        some { (s.accounts client).getD (emptyAccount client) with
               available :=
                 ((s.accounts client).getD (emptyAccount client)).available
                   - amount } ∧
      (s.process_single_command
          (Command.Withdrawal client tx amount)).transactions tx =
        some { client_id := client, amount := amount, is_deposit := false,
               status := TransactionStatus.Normal }) ∧
    (¬ amount ≤ ((s.accounts client).getD (emptyAccount client)).available →
      (s.process_single_command
          (Command.Withdrawal client tx amount)).transactions =
        s.transactions ∧
      (s.process_single_command
          (Command.Withdrawal client tx amount)).accounts client =
        some ((s.accounts client).getD (emptyAccount client)) ∧
      ∀ amount2,
        ((s.process_single_command
            (Command.Withdrawal client tx amount)).process_single_command
              (Command.Deposit client tx amount2)).transactions tx =
          some { client_id := client, amount := amount2, is_deposit := true,
                 status := TransactionStatus.Normal }) := by
  have hlk0 : ((s.accounts client).getD (emptyAccount client)).locked = false :=
    lockedOf_getD_false hLock
  constructor
  · intro hf
    constructor
    · simp [State.process_single_command, hTx, hLock, hf]
    · simp [State.process_single_command, hTx, hLock, hf]
  · intro hf
    have h1 : s.process_single_command (Command.Withdrawal client tx amount) =
        ⟨upd s.accounts client
            ((s.accounts client).getD (emptyAccount client)),
          s.transactions⟩ := by
      simp [State.process_single_command, hTx, hLock, hf]
    refine ⟨by rw [h1], by rw [h1]; simp [upd], ?_⟩
    intro amount2
    rw [h1]
    simp [State.process_single_command, hTx, hlk0, upd, lockedOf]

/-- Witness for C4 (amended): a withdrawal of 5 from an unseen client is
rejected, and a deposit reusing transaction id 1 then succeeds. -/
theorem C4_amended_withdrawal_guard_witness :
    ((State.empty.process_single_command
        (Command.Withdrawal 1 1 (Decimal.ofInt 5))).process_single_command
          (Command.Deposit 1 1 (Decimal.ofInt 7))).transactions 1 =
      some { client_id := 1, amount := Decimal.ofInt 7, is_deposit := true,
             status := TransactionStatus.Normal } :=
  ((C4_amended_withdrawal_guard State.empty 1 1 (Decimal.ofInt 5)
      rfl rfl).2 (by decide)).2.2 (Decimal.ofInt 7)

/-- C5.  A chargeback that passes all checks (record present, owning client
matches, status Disputed, account present and not locked) marks the record
ChargedBack, decreases held by the record's amount clamped at zero, sets
locked, and leaves available unchanged; the resulting held is never
negative. -/
theorem C5_chargeback_applied (s : State) (client tx : Nat)
    (record : TransactionRecord) (account : Account)
    (hrec : s.transactions tx = some record)
    (hcli : record.client_id = client)
    (hst : record.status = TransactionStatus.Disputed)
    (hacc : s.accounts client = some account)
    (hlock : account.locked = false) :
    (s.process_single_command (Command.Chargeback client tx)).transactions
        tx = some { record with status := TransactionStatus.ChargedBack } ∧
    (s.process_single_command (Command.Chargeback client tx)).accounts
        client =
      some { account with
             held := if account.held - record.amount < Decimal.zero
                     then Decimal.zero else account.held - record.amount,
             locked := true } ∧
    ∀ a2,
      (s.process_single_command (Command.Chargeback client tx)).accounts
          client = some a2 →
      Decimal.zero ≤ a2.held ∧ a2.available = account.available := by
  have h1 : (s.process_single_command (Command.Chargeback client tx)).accounts
      client =
      some { account with
             held := if account.held - record.amount < Decimal.zero
                     then Decimal.zero else account.held - record.amount,
             locked := true } := by
    simp [State.process_single_command, hrec, hcli, hst, hacc, hlock]
  refine ⟨?_, h1, ?_⟩
  · simp [State.process_single_command, hrec, hcli, hst, hacc, hlock]
  · intro a2 ha2
    rw [h1] at ha2
    obtain rfl := Option.some.inj ha2
    constructor
    · show Decimal.zero ≤
        (if account.held - record.amount < Decimal.zero then Decimal.zero
         else account.held - record.amount)
      by_cases hneg : account.held - record.amount < Decimal.zero
      · rw [if_pos hneg]
        decide
      · rw [if_neg hneg]
        exact Decimal.zero_le_of_not_lt_zero hneg
    · rfl

/-- Witness for C5: charging back the disputed deposit of 10 onto account 1
empties held, locks the account and leaves available at 0. -/
theorem C5_chargeback_applied_witness :
    ((State.run State.empty
        [Command.Deposit 1 1 (Decimal.ofInt 10),
          Command.Dispute 1 1]).process_single_command
            (Command.Chargeback 1 1)).accounts 1 =
      some { client_id := 1, available := ⟨0, 0⟩, held := ⟨0, 0⟩,
             locked := true } := by
  have h :=
    (C5_chargeback_applied
      (State.run State.empty
        [Command.Deposit 1 1 (Decimal.ofInt 10), Command.Dispute 1 1])
      1 1
      { client_id := 1, amount := Decimal.ofInt 10, is_deposit := true,
        status := TransactionStatus.Disputed }
      { client_id := 1, available := ⟨0, 0⟩, held := ⟨10, 0⟩, locked := false }
      (by decide) rfl rfl (by decide) rfl).2.1
  rw [h]
  decide

/-- C6 counterexample.  Nothing stops a decoded deposit from carrying a
negative amount (the decoder never checks the sign), and such a deposit —
not a dispute — drives a non-negative available negative. -/
theorem C6_counterexample :
    (State.run State.empty [Command.Deposit 1 1 (Decimal.ofInt 10)]).accounts
        1 =
      some { client_id := 1, available := ⟨10, 0⟩, held := ⟨0, 0⟩,
             locked := false } ∧
    Decimal.zero ≤ (⟨10, 0⟩ : Decimal) ∧
    ((State.run State.empty
        [Command.Deposit 1 1 (Decimal.ofInt 10)]).process_single_command
          (Command.Deposit 1 2 ⟨-20, 0⟩)).accounts 1 =
      some { client_id := 1, available := ⟨-10, 0⟩, held := ⟨0, 0⟩,
             locked := false } ∧
    ((⟨-10, 0⟩ : Decimal) < Decimal.zero) := by
  decide

/-- C6 (amended).  For every command other than a dispute, if the command's
amount (when it has one) is non-negative and every stored record's amount is
non-negative, then processing the command never drives the available of an
account that was non-negative below zero. -/
theorem C6_amended_only_dispute_negative (s : State) (cmd : Command)
    (hnd : ∀ client tx, cmd ≠ Command.Dispute client tx)
    (hamt : ∀ q, cmd.amountOf = some q → Decimal.zero ≤ q)
    (hrecs : ∀ t r, s.transactions t = some r → Decimal.zero ≤ r.amount)
    (c : Nat) (a : Account) (hA : s.accounts c = some a)
    (h0 : Decimal.zero ≤ a.available)
    (a2 : Account)
    (ha2 : (s.process_single_command cmd).accounts c = some a2) :
    Decimal.zero ≤ a2.available := by
  cases cmd with
  | Deposit client tx q =>
      have hq : Decimal.zero ≤ q := hamt q rfl
      by_cases hd : (s.transactions tx).isSome
      · simp only [State.process_single_command, hd, if_pos] at ha2
        rw [hA] at ha2
        obtain rfl := Option.some.inj ha2
        exact h0
      · by_cases hl : lockedOf (s.accounts client)
        · simp [State.process_single_command, hd, hl] at ha2
          rw [hA] at ha2
          obtain rfl := Option.some.inj ha2
          exact h0
        · simp [State.process_single_command, hd, hl] at ha2
          by_cases hc : c = client
          · subst hc
            rw [hA] at ha2
            simp [upd, Option.getD] at ha2
            rw [← ha2]
            exact Decimal.add_nonneg h0 hq
          · rw [upd_of_ne _ _ _ hc, hA] at ha2
            obtain rfl := Option.some.inj ha2
            exact h0
  | Withdrawal client tx q =>
      by_cases hd : (s.transactions tx).isSome
      · simp only [State.process_single_command, hd, if_pos] at ha2
        rw [hA] at ha2
        obtain rfl := Option.some.inj ha2
        exact h0
      · by_cases hl : lockedOf (s.accounts client)
        · simp [State.process_single_command, hd, hl] at ha2
          rw [hA] at ha2
          obtain rfl := Option.some.inj ha2
          exact h0
        · by_cases hf :
            q ≤ ((s.accounts client).getD (emptyAccount client)).available
          · simp [State.process_single_command, hd, hl, hf] at ha2
            by_cases hc : c = client
            · subst hc
              rw [hA] at ha2 hf
              simp [upd, Option.getD] at ha2 hf
              rw [← ha2]
              exact Decimal.sub_nonneg_of_le hf
            · rw [upd_of_ne _ _ _ hc, hA] at ha2
              obtain rfl := Option.some.inj ha2
              exact h0
          · simp [State.process_single_command, hd, hl, hf] at ha2
            by_cases hc : c = client
            · subst hc
              rw [hA] at ha2
              simp [upd, Option.getD] at ha2
              rw [← ha2]
              exact h0
            · rw [upd_of_ne _ _ _ hc, hA] at ha2
              obtain rfl := Option.some.inj ha2
              exact h0
  | Dispute client tx => exact absurd rfl (hnd client tx)
  | Resolve client tx =>
      by_cases hl : lockedOf (s.accounts client)
      · simp [State.process_single_command, hl] at ha2
        rw [hA] at ha2
        obtain rfl := Option.some.inj ha2
        exact h0
      · rcases htx : s.transactions tx with _ | record
        · simp [State.process_single_command, hl, htx] at ha2
          rw [hA] at ha2
          obtain rfl := Option.some.inj ha2
          exact h0
        · have hra : Decimal.zero ≤ record.amount := hrecs tx record htx
          by_cases hm : record.client_id = client
          · by_cases hst : record.status = TransactionStatus.Disputed
            · rcases hacc : s.accounts client with _ | account
              · simp [State.process_single_command, hl, htx, hm, hst, hacc,
                  lockedOf] at ha2
                rw [hA] at ha2
                obtain rfl := Option.some.inj ha2
                exact h0
              · rw [hacc] at hl
                simp [State.process_single_command, hl, htx, hm, hst,
                  hacc] at ha2
                by_cases hc : c = client
                · subst hc
                  rw [hA] at hacc
                  obtain rfl := Option.some.inj hacc
                  simp [upd] at ha2
                  rw [← ha2]
                  exact Decimal.add_nonneg h0 hra
                · rw [upd_of_ne _ _ _ hc, hA] at ha2
                  obtain rfl := Option.some.inj ha2
                  exact h0
            · simp [State.process_single_command, hl, htx, hm, hst] at ha2
              rw [hA] at ha2
              obtain rfl := Option.some.inj ha2
              exact h0
          · simp [State.process_single_command, hl, htx, hm] at ha2
            rw [hA] at ha2
            obtain rfl := Option.some.inj ha2
            exact h0
  | Chargeback client tx =>
      rcases htx : s.transactions tx with _ | record
      · simp [State.process_single_command, htx] at ha2
        rw [hA] at ha2
        obtain rfl := Option.some.inj ha2
        exact h0
      · by_cases hg : record.client_id ≠ client ∨
            record.status ≠ TransactionStatus.Disputed
        · simp [State.process_single_command, htx, hg] at ha2
          rw [hA] at ha2
          obtain rfl := Option.some.inj ha2
          exact h0
        · push_neg at hg
          rcases hacc : s.accounts client with _ | account
          · simp [State.process_single_command, htx, hg.1, hg.2, hacc] at ha2
            rw [hA] at ha2
            obtain rfl := Option.some.inj ha2
            exact h0
          · by_cases hlk : account.locked
            · simp [State.process_single_command, htx, hg.1, hg.2, hacc,
                hlk] at ha2
              rw [hA] at ha2
              obtain rfl := Option.some.inj ha2
              exact h0
            · simp [State.process_single_command, htx, hg.1, hg.2, hacc,
                hlk] at ha2
              by_cases hc : c = client
              · subst hc
                rw [hA] at hacc
                obtain rfl := Option.some.inj hacc
                simp [upd] at ha2
                rw [← ha2]
                exact h0
              · rw [upd_of_ne _ _ _ hc, hA] at ha2
                obtain rfl := Option.some.inj ha2
                exact h0

/-- Witness for C6 (amended): a deposit of 5 on a zero account keeps
available non-negative. -/
theorem C6_amended_only_dispute_negative_witness :
    Decimal.zero ≤
      ({ client_id := 1, available := Decimal.zero + Decimal.ofInt 5,
         held := Decimal.zero, locked := false } : Account).available :=
  C6_amended_only_dispute_negative
    ⟨upd (fun _ => none) 1
      { client_id := 1, available := Decimal.zero, held := Decimal.zero,
        locked := false }, fun _ => none⟩
    (Command.Deposit 1 1 (Decimal.ofInt 5))
    (fun _ _ h => Command.noConfusion h)
    (fun q hq => Option.some.inj hq ▸ (by decide))
    (fun _ _ h => Option.noConfusion h)
    1
    { client_id := 1, available := Decimal.zero, held := Decimal.zero,
      locked := false }
    (by decide) (by decide)
    { client_id := 1, available := Decimal.zero + Decimal.ofInt 5,
      held := Decimal.zero, locked := false }
    (by decide)

/-- C9.  A withdrawal naming an unseen client (with a fresh transaction id)
lazily creates the zero-balance unlocked account before the funds check;
when the positive-amount withdrawal is then rejected for insufficient
funds, the account remains in the state (so it appears in the final
export's account map) while no record is created. -/
theorem C9_lazy_account_on_rejected_withdrawal (s : State) (client tx : Nat)
    (amount : Decimal)
    (hacc : s.accounts client = none) (htx : s.transactions tx = none)
    (hpos : Decimal.zero < amount) :
    (s.process_single_command (Command.Withdrawal client tx amount)).accounts
        client = some (emptyAccount client) ∧
    (s.process_single_command
        (Command.Withdrawal client tx amount)).transactions =
      s.transactions := by
  have hno : ¬ amount ≤ (emptyAccount client).available := fun hle =>
    Decimal.not_le_of_zero_lt hpos hle
  have hno' : ¬ amount ≤ Decimal.zero := hno
  constructor
  · simp [State.process_single_command, hacc, htx, hno, hno', lockedOf, upd,
      emptyAccount]
  · simp [State.process_single_command, hacc, htx, hno, hno', lockedOf]

/-- Witness for C9: withdrawing 5 from unseen client 1 leaves the fresh
zero-balance account and no record. -/
theorem C9_lazy_account_on_rejected_withdrawal_witness :
    (State.empty.process_single_command
        (Command.Withdrawal 1 1 (Decimal.ofInt 5))).accounts 1 =
      some (emptyAccount 1) :=
  (C9_lazy_account_on_rejected_withdrawal State.empty 1 1 (Decimal.ofInt 5)
    rfl rfl (by decide)).1

end PaymentEngine
